import Mathlib

/-!
Verification development for the SmarTest Nash-equilibrium question engine
(`src/question_types/nash_equilibrium.py`).

The payoff matrix of a game instance is stored in the source as a dict from
"i,j" keys to pairs `(p1, p2)` of Python ints covering exactly the grid
`[0,rows) x [0,cols)`; we model it as a total function `ℕ → ℕ → ℤ × ℤ`
(the solver and renderer only ever read in-grid keys, which are always
present).  Python text is modelled as `List Char`, rationals stand in for
Python floats (all score arithmetic relevant to the claims is exact), and
fallible Python code is modelled in `Except String`.
-/

/-! ## EquilibriumSolver: `_find_nash_equilibria` (lines 379-424) -/

/-- Player 1 best-response check at cell `(i, j)`: the loop
`for alt_i in range(rows): if alt_i != i and matrix[alt_i,j][0] > p1: False`. -/
def p1_best_response (matrix : ℕ → ℕ → ℤ × ℤ) (rows i j : ℕ) : Bool :=
  (List.range rows).all fun alt_i =>
    !(decide (alt_i ≠ i) && decide ((matrix i j).1 < (matrix alt_i j).1))

/-- Player 2 best-response check at cell `(i, j)`: the loop
`for alt_j in range(cols): if alt_j != j and matrix[i,alt_j][1] > p2: False`. -/
def p2_best_response (matrix : ℕ → ℕ → ℤ × ℤ) (cols i j : ℕ) : Bool :=
  (List.range cols).all fun alt_j =>
    !(decide (alt_j ≠ j) && decide ((matrix i j).2 < (matrix i alt_j).2))

/-- `_find_nash_equilibria`: row-major scan of all cells, collecting those where
both players are best responding (strict `>` comparisons, so ties keep
best-response status). -/
def _find_nash_equilibria (matrix : ℕ → ℕ → ℤ × ℤ) (rows cols : ℕ) :
    List (ℕ × ℕ) :=
  (List.range rows).flatMap fun i =>
    (List.range cols).filterMap fun j =>
      if p1_best_response matrix rows i j && p2_best_response matrix cols i j
      then some (i, j) else none

/-- `generate_answer` (lines 66-92), restricted to the fields the scorer reads:
`exists` and `equilibria`. -/
structure CorrectAnswer where
  exists_ : Bool
  equilibria : List (ℕ × ℕ)
deriving DecidableEq, Repr

/-- `generate_answer`: `exists` is `len(equilibria) > 0`. -/
def generate_answer (matrix : ℕ → ℕ → ℤ × ℤ) (rows cols : ℕ) : CorrectAnswer :=
  let equilibria := _find_nash_equilibria matrix rows cols
  ⟨decide (0 < equilibria.length), equilibria⟩

/-- Strict row-major order on positions. -/
def rowMajorLt (a b : ℕ × ℕ) : Prop :=
  a.1 < b.1 ∨ (a.1 = b.1 ∧ a.2 < b.2)

instance : DecidableRel rowMajorLt := fun _ _ => by
  unfold rowMajorLt; infer_instance

theorem p1_best_response_iff (matrix : ℕ → ℕ → ℤ × ℤ) (rows i j : ℕ) :
    p1_best_response matrix rows i j = true ↔
      ∀ i', i' < rows → i' ≠ i → ¬ (matrix i j).1 < (matrix i' j).1 := by
  simp only [p1_best_response, List.all_eq_true, List.mem_range, Bool.not_eq_true',
    Bool.and_eq_false_iff, decide_eq_false_iff_not, not_not, not_lt]
  constructor
  · intro h i' h1 h2
    exact (h i' h1).resolve_left h2
  · intro h x hx
    by_cases hxi : x = i
    · exact Or.inl hxi
    · exact Or.inr (h x hx hxi)

theorem p2_best_response_iff (matrix : ℕ → ℕ → ℤ × ℤ) (cols i j : ℕ) :
    p2_best_response matrix cols i j = true ↔
      ∀ j', j' < cols → j' ≠ j → ¬ (matrix i j).2 < (matrix i j').2 := by
  simp only [p2_best_response, List.all_eq_true, List.mem_range, Bool.not_eq_true',
    Bool.and_eq_false_iff, decide_eq_false_iff_not, not_not, not_lt]
  constructor
  · intro h j' h1 h2
    exact (h j' h1).resolve_left h2
  · intro h x hx
    by_cases hxj : x = j
    · exact Or.inl hxj
    · exact Or.inr (h x hx hxj)

/-- Membership characterization of the solver's output. -/
theorem mem_find_iff (matrix : ℕ → ℕ → ℤ × ℤ) (rows cols i j : ℕ) :
    (i, j) ∈ _find_nash_equilibria matrix rows cols ↔
      i < rows ∧ j < cols ∧
      (∀ i', i' < rows → i' ≠ i → ¬ (matrix i j).1 < (matrix i' j).1) ∧
      (∀ j', j' < cols → j' ≠ j → ¬ (matrix i j).2 < (matrix i j').2) := by
  unfold _find_nash_equilibria
  simp only [List.mem_flatMap, List.mem_filterMap, List.mem_range]
  constructor
  · rintro ⟨a, ha, b, hb, hsome⟩
    by_cases hc : p1_best_response matrix rows a b && p2_best_response matrix cols a b
    · rw [if_pos hc] at hsome
      obtain ⟨rfl, rfl⟩ : a = i ∧ b = j := by
        injection hsome with h; exact ⟨congrArg Prod.fst h, congrArg Prod.snd h⟩
      simp only [Bool.and_eq_true] at hc
      exact ⟨ha, hb, (p1_best_response_iff ..).mp hc.1, (p2_best_response_iff ..).mp hc.2⟩
    · rw [if_neg hc] at hsome; exact absurd hsome (by simp)
  · rintro ⟨hi, hj, h1, h2⟩
    refine ⟨i, hi, j, hj, ?_⟩
    rw [if_pos]
    simp only [Bool.and_eq_true]
    exact ⟨(p1_best_response_iff ..).mpr h1, (p2_best_response_iff ..).mpr h2⟩

theorem eq_of_mem_dite_some {α : Type} {c : Bool} {v x : α}
    (h : x ∈ if c = true then some v else none) : x = v := by
  cases c
  · simp at h
  · simp only [if_true, Option.mem_def, Option.some.injEq] at h
    exact h.symm

theorem eq_of_some_eq {α : Type} {c : Bool} {v x : α}
    (h : (if c = true then some v else none) = some x) : x = v := by
  cases c
  · simp at h
  · simp only [if_true, Option.some.injEq] at h
    exact h.symm

/-- The solver's output is strictly increasing in row-major order. -/
theorem find_pairwise (matrix : ℕ → ℕ → ℤ × ℤ) (rows cols : ℕ) :
    (_find_nash_equilibria matrix rows cols).Pairwise rowMajorLt := by
  unfold _find_nash_equilibria
  rw [List.pairwise_flatMap]
  constructor
  · intro a _
    rw [List.pairwise_filterMap]
    refine List.Pairwise.imp ?_ (List.pairwise_lt_range cols)
    intro b b' hlt x hx y hy
    have hx' : x = (a, b) := eq_of_mem_dite_some hx
    have hy' : y = (a, b') := eq_of_mem_dite_some hy
    subst hx'; subst hy'
    exact Or.inr ⟨rfl, hlt⟩
  · refine List.Pairwise.imp ?_ (List.pairwise_lt_range rows)
    intro a a' hlt x hx y hy
    obtain ⟨b, _, hbx⟩ := List.mem_filterMap.mp hx
    obtain ⟨b', _, hby⟩ := List.mem_filterMap.mp hy
    have hx' : x = (a, b) := eq_of_some_eq hbx
    have hy' : y = (a', b') := eq_of_some_eq hby
    subst hx'; subst hy'
    exact Or.inl hlt

theorem find_nodup (matrix : ℕ → ℕ → ℤ × ℤ) (rows cols : ℕ) :
    (_find_nash_equilibria matrix rows cols).Nodup := by
  refine (find_pairwise matrix rows cols).imp ?_
  intro x y h hxy
  subst hxy
  rcases h with h | ⟨-, h⟩ <;> exact lt_irrefl _ h

/-! ## Scorer: the score computation of `evaluate_answer` (lines 94-187).
Scores are modelled as rationals; on the inputs the claims touch, Python's
float arithmetic is exact, so the rational model agrees with the source. -/

/-- Round half to even on a rational, modelling Python 3's `round` on the
exactly representable values produced by the scorer. -/
def roundHalfEven (x : ℚ) : ℤ :=
  if x - ⌊x⌋ < 1/2 then ⌊x⌋
  else if 1/2 < x - ⌊x⌋ then ⌊x⌋ + 1
  else if ⌊x⌋ % 2 = 0 then ⌊x⌋ else ⌊x⌋ + 1

/-- `round(score, 2)`. -/
def pyRound2 (q : ℚ) : ℚ := (roundHalfEven (q * 100) : ℚ) / 100

/-- The position-scoring block (lines 134-161) as a function of the student's
claimed position set `S` and the correct position set `C`; in the source
`correct_found` is `S ∩ C`, `incorrect_found` is `S \ C` and `total_correct`
is `|C|`, and the penalty is only computed when `incorrect_found` is
non-empty. -/
def positionScore (S C : Finset (ℕ × ℕ)) : ℚ :=
  if (S ∩ C).card = C.card ∧ (S \ C).card = 0 then 50
  else if S.card = 0 then 0
  else if 0 < (S \ C).card then
    max 0 ((((S ∩ C).card : ℚ) / (C.card : ℚ)) * 50 -
      min ((((S \ C).card : ℚ) / (C.card : ℚ)) * 25)
        (((((S ∩ C).card : ℚ) / (C.card : ℚ)) * 50) * (1/2)))
  else (((S ∩ C).card : ℚ) / (C.card : ℚ)) * 50

/-- The score computed by `evaluate_answer` from the parsed student claim
(existence plus positions, rounded to two decimals; feedback strings are not
modelled). -/
def scoreOf (student_exists : Bool) (student_positions : List (ℕ × ℕ))
    (correct_answer : CorrectAnswer) : ℚ :=
  let existence_term : ℚ := if student_exists = correct_answer.exists_ then 50 else 0
  let position_term : ℚ :=
    if correct_answer.exists_ = true then
      positionScore student_positions.toFinset correct_answer.equilibria.toFinset
    else 0
  pyRound2 (existence_term + position_term)

theorem roundHalfEven_int (n : ℤ) : roundHalfEven (n : ℚ) = n := by
  unfold roundHalfEven
  rw [Int.floor_intCast, if_pos (by norm_num : (n : ℚ) - n < 1/2)]

theorem pyRound2_int (n : ℤ) : pyRound2 (n : ℚ) = (n : ℚ) := by
  unfold pyRound2
  have h : ((n : ℚ) * 100) = ((n * 100 : ℤ) : ℚ) := by push_cast; ring
  rw [h, roundHalfEven_int]
  push_cast
  exact mul_div_cancel_right₀ _ (by norm_num)

theorem roundHalfEven_bounds (x : ℚ) (lo hi : ℤ) (hlo : (lo : ℚ) ≤ x)
    (hhi : x ≤ (hi : ℚ)) : lo ≤ roundHalfEven x ∧ roundHalfEven x ≤ hi := by
  have h1 : lo ≤ ⌊x⌋ := Int.le_floor.mpr hlo
  have h2 : ⌊x⌋ ≤ hi := by
    have h := Int.floor_le_floor hhi
    rwa [Int.floor_intCast] at h
  have hfx : (⌊x⌋ : ℚ) ≤ x := Int.floor_le x
  have hplus : 1/2 ≤ x - ⌊x⌋ → ⌊x⌋ + 1 ≤ hi := by
    intro hr
    have hlt : (⌊x⌋ : ℚ) < (hi : ℚ) := by linarith
    exact Int.add_one_le_iff.mpr (by exact_mod_cast hlt)
  unfold roundHalfEven
  by_cases hc1 : x - ⌊x⌋ < 1/2
  · rw [if_pos hc1]; exact ⟨h1, h2⟩
  · rw [if_neg hc1]
    by_cases hc2 : 1/2 < x - ⌊x⌋
    · rw [if_pos hc2]
      exact ⟨le_trans h1 (by omega), hplus (le_of_lt hc2)⟩
    · rw [if_neg hc2]
      by_cases hc3 : ⌊x⌋ % 2 = 0
      · rw [if_pos hc3]; exact ⟨h1, h2⟩
      · rw [if_neg hc3]
        exact ⟨le_trans h1 (by omega), hplus (not_lt.mp hc1)⟩

theorem pyRound2_bounds {q : ℚ} (h0 : 0 ≤ q) (h1 : q ≤ 100) :
    0 ≤ pyRound2 q ∧ pyRound2 q ≤ 100 := by
  have hb := roundHalfEven_bounds (q * 100) 0 10000
    (by push_cast; linarith) (by push_cast; linarith)
  unfold pyRound2
  constructor
  · exact div_nonneg (by exact_mod_cast hb.1) (by norm_num)
  · rw [div_le_iff₀ (by norm_num : (0:ℚ) < 100)]
    have : (roundHalfEven (q * 100) : ℚ) ≤ (10000 : ℤ) := by exact_mod_cast hb.2
    calc (roundHalfEven (q * 100) : ℚ) ≤ ((10000 : ℤ) : ℚ) := this
      _ = 100 * 100 := by norm_num

theorem positionScore_nonneg (S C : Finset (ℕ × ℕ)) : 0 ≤ positionScore S C := by
  unfold positionScore
  by_cases hc1 : (S ∩ C).card = C.card ∧ (S \ C).card = 0
  · rw [if_pos hc1]; norm_num
  · rw [if_neg hc1]
    by_cases hc2 : S.card = 0
    · rw [if_pos hc2]
    · rw [if_neg hc2]
      have hbase : (0:ℚ) ≤ (((S ∩ C).card : ℚ) / (C.card : ℚ)) * 50 := by positivity
      by_cases hc3 : 0 < (S \ C).card
      · rw [if_pos hc3]; exact le_max_left 0 _
      · rw [if_neg hc3]; exact hbase

theorem positionScore_le_50 (S C : Finset (ℕ × ℕ)) (hC : C ≠ ∅) :
    positionScore S C ≤ 50 := by
  have hCpos : 0 < C.card := Finset.card_pos.mpr (Finset.nonempty_iff_ne_empty.mpr hC)
  have hsub : (S ∩ C).card ≤ C.card := Finset.card_le_card Finset.inter_subset_right
  have hbase : (((S ∩ C).card : ℚ) / (C.card : ℚ)) * 50 ≤ 50 := by
    have hdiv : (((S ∩ C).card : ℚ) / (C.card : ℚ)) ≤ 1 := by
      rw [div_le_one (by exact_mod_cast hCpos)]
      exact_mod_cast hsub
    nlinarith
  unfold positionScore
  by_cases hc1 : (S ∩ C).card = C.card ∧ (S \ C).card = 0
  · rw [if_pos hc1]
  · rw [if_neg hc1]
    by_cases hc2 : S.card = 0
    · rw [if_pos hc2]; norm_num
    · rw [if_neg hc2]
      by_cases hc3 : 0 < (S \ C).card
      · rw [if_pos hc3]
        refine max_le (by norm_num) ?_
        have hpen : (0:ℚ) ≤
            min ((((S \ C).card : ℚ) / (C.card : ℚ)) * 25)
              (((((S ∩ C).card : ℚ) / (C.card : ℚ)) * 50) * (1/2)) := by
          refine le_min (by positivity) (by positivity)
        linarith
      · rw [if_neg hc3]; exact hbase

theorem scoreOf_bounds (se : Bool) (sp : List (ℕ × ℕ)) (ca : CorrectAnswer)
    (hca : ca.exists_ = true → ca.equilibria ≠ []) :
    0 ≤ scoreOf se sp ca ∧ scoreOf se sp ca ≤ 100 := by
  unfold scoreOf
  have hE0 : (0:ℚ) ≤ (if se = ca.exists_ then (50:ℚ) else 0) := by split <;> norm_num
  have hE1 : (if se = ca.exists_ then (50:ℚ) else 0) ≤ 50 := by split <;> norm_num
  have hP0 : (0:ℚ) ≤ (if ca.exists_ = true then
      positionScore sp.toFinset ca.equilibria.toFinset else 0) := by
    split
    · exact positionScore_nonneg _ _
    · exact le_refl 0
  have hP1 : (if ca.exists_ = true then
      positionScore sp.toFinset ca.equilibria.toFinset else 0) ≤ 50 := by
    split
    · refine positionScore_le_50 _ _ ?_
      rw [Ne, List.toFinset_eq_empty_iff]
      exact hca (by assumption)
    · norm_num
  exact pyRound2_bounds (by linarith) (by linarith)

/-! ## AnswerInterpreter (lines 426-588).
Python `str` values are modelled as `List Char`.  The `re` patterns of the
source are modelled by a small nondeterministic matching engine over
`(previous character, rest of text)` states, covering exactly the constructs
the source's patterns use (literals, `\s*`/`\s+`, `(?:..|..)` alternation,
`(?:..)?` option, the zero-width `\b` boundary, and the `^` anchor via
anchored matching).  `\s`, `\w` and case conversions are modelled at their
ASCII meaning. -/

def apos : Char := Char.ofNat 39

def isPySpace (c : Char) : Bool :=
  c = ' ' || c = '\t' || c = '\n' || c = '\r' || c = Char.ofNat 11 || c = Char.ofNat 12

def isWordChar (c : Char) : Bool := c.isAlpha || c.isDigit || c = '_'

/-- Regex fragment: from the previous character (for `\b`) and the rest of the
text, all states reachable after consuming the fragment. -/
abbrev REM := Option Char → List Char → List (Option Char × List Char)

def reLit : List Char → REM
  | [] => fun prev s => [(prev, s)]
  | c :: cs => fun _ s =>
    match s with
    | [] => []
    | d :: ds => if d = c then reLit cs (some d) ds else []

def reSeq (p q : REM) : REM := fun prev s =>
  (p prev s).flatMap fun st => q st.1 st.2

def reSeqs (ps : List REM) : REM := ps.foldr reSeq fun prev s => [(prev, s)]

def reAlt (ps : List REM) : REM := fun prev s => ps.flatMap fun p => p prev s

def reOpt (p : REM) : REM := fun prev s => p prev s ++ [(prev, s)]

/-- Zero-width word boundary `\b`. -/
def reWb : REM := fun prev s =>
  let a := match prev with | some c => isWordChar c | none => false
  let b := match s with | c :: _ => isWordChar c | [] => false
  if a != b then [(prev, s)] else []

/-- States after consuming zero or more whitespace characters (`\s*`). -/
def reWs0 : REM
  | prev, [] => [(prev, [])]
  | prev, c :: cs => (prev, c :: cs) :: (if isPySpace c then reWs0 (some c) cs else [])

def reSpaceChar : REM := fun _ s =>
  match s with
  | [] => []
  | c :: cs => if isPySpace c then [(some c, cs)] else []

/-- One or more whitespace characters (`\s+`). -/
def reWs1 : REM := reSeq reSpaceChar reWs0

def lit (s : String) : REM := reLit s.toList

/-- Literal containing one apostrophe, e.g. `litApos "isn" "t"` for the
contraction of "is not". -/
def litApos (a b : String) : REM := reLit (a.toList ++ apos :: b.toList)

/-- Word with `\b` on both sides. -/
def word (w : String) : REM := reSeqs [reWb, lit w, reWb]

/-- Success of `re.match` (anchored at the start of the text). -/
def reMatchStart (p : REM) (s : List Char) : Bool := !(p none s).isEmpty

def reSearchAux (p : REM) : Option Char → List Char → Bool
  | prev, [] => !(p prev []).isEmpty
  | prev, c :: cs => !(p prev (c :: cs)).isEmpty || reSearchAux p (some c) cs

/-- Success of `re.search` (match attempted at every position). -/
def reSearch (p : REM) (s : List Char) : Bool := reSearchAux p none s

/-- Pattern `^\s*yes\b` (line 507, checked with `re.match`). -/
def pat_leading_yes : REM := reSeqs [reWs0, lit "yes", reWb]

/-- Keyword patterns of `_extract_existence_claim` (lines 471-476). -/
def equilibrium_keywords : List (List Char → Bool) :=
  [ fun s => reSearch (word "equilibrium") s,
    fun s => reSearch (word "equilibria") s,
    fun s => reSearch (word "nash") s,
    fun s => reSearch (reSeqs [reWb, lit "strategy", reWs1, lit "profile", reWb]) s ]

/-- Existence/quantifier patterns of `_extract_existence_claim` (lines 482-490). -/
def existence_keywords : List (List Char → Bool) :=
  [ fun s => reSearch (reSeqs [reWb, lit "exist", reOpt (lit "s"), reWb]) s,
    fun s => reSearch (reSeqs [reWb, lit "there", reWs1,
      reAlt [lit "is", lit "are", litApos "isn" "t", litApos "aren" "t"], reWb]) s,
    fun s => reSearch (word "yes") s,
    fun s => reSearch (word "no") s,
    fun s => reSearch (word "none") s,
    fun s => reSearch (word "found") s,
    fun s => reSearch (word "identified") s ]

/-- `_extract_existence_claim` (lines 461-495).  Note both keyword branches
return `"equilibrium_mentioned"`; the `"direct_answer"` value described in its
docstring is never returned. -/
def _extract_existence_claim (answer_lower : List Char) : Option String :=
  if equilibrium_keywords.any fun kw => kw answer_lower then some "equilibrium_mentioned"
  else if existence_keywords.any fun kw => kw answer_lower then some "equilibrium_mentioned"
  else none

/-- Negation pattern table with weights (lines 511-529). -/
def negation_patterns : List ((List Char → Bool) × ℕ) :=
  [ (fun s => reMatchStart (reSeqs [reWs0, lit "no", reWb]) s, 10),
    (fun s => reSearch (reSeqs [reWb, lit "there", reWs1, reAlt [lit "is", lit "are"],
      reWs1, lit "no", reWb]) s, 10),
    (fun s => reSearch (reSeqs [reWb, lit "there", reWs1,
      reAlt [litApos "isn" "t", litApos "aren" "t"], reWb]) s, 10),
    (fun s => reSearch (reSeqs [reWb, lit "do", reOpt (lit "es"), litApos "n" "t",
      reWs1, lit "exist", reWb]) s, 9),
    (fun s => reSearch (reSeqs [reWb, litApos "don" "t", reWs1, lit "exist", reWb]) s, 9),
    (fun s => reSearch (reSeqs [reWb, lit "not", reWs1, lit "exist", reWb]) s, 9),
    (fun s => reSearch (reSeqs [reWb, lit "cannot", reWs1,
      reAlt [lit "find", lit "be"], reWb]) s, 8),
    (fun s => reSearch (reSeqs [reWb, litApos "can" "t", reWs1,
      reAlt [lit "find", lit "be"], reWb]) s, 8),
    (fun s => reSearch (reSeqs [reWb, lit "no", reWs1, reOpt (reSeq (lit "pure") reWs1),
      reOpt (reSeq (lit "nash") reWs1), lit "equilibri", reAlt [lit "um", lit "a"],
      reWb]) s, 9),
    (fun s => reSearch (word "none") s, 8),
    (fun s => reSearch (word "neither") s, 7),
    (fun s => reSearch (reSeqs [reWb, lit "zero", reWs1, lit "equilibri"]) s, 8) ]

/-- Affirmation pattern table with weights (lines 532-540). -/
def affirmation_patterns : List ((List Char → Bool) × ℕ) :=
  [ (fun s => reSearch (reSeqs [reWb, lit "equilibri", reAlt [lit "um", lit "a"], reWs1,
      reOpt (reSeq (lit "does") reWs1), lit "exist", reOpt (lit "s"), reWb]) s, 10),
    (fun s => reSearch (reSeqs [reWb, lit "there", reWs1, reAlt [lit "is", lit "are"],
      reWs1, reAlt [lit "a", lit "an", lit "one", lit "two", lit "equilibri"]]) s, 10),
    (fun s => reSearch (reSeqs [reWb, lit "exist", reOpt (lit "s"), reWs1, lit "at",
      reWb]) s, 9),
    (fun s => reSearch (reSeqs [reWb, lit "exist", reOpt (lit "s"), reWb]) s, 7),
    (fun s => reSearch (reSeqs [reWb, reAlt [lit "found", lit "identified"], reWs1,
      reAlt [lit "a", lit "an", lit "equilibri"]]) s, 8),
    (fun s => reSearch (reSeqs [reWb, lit "has", reWs1,
      reAlt [lit "a", lit "an", lit "equilibri"]]) s, 7) ]

/-- Weighted sum of the matching patterns (lines 543-550). -/
def _weighted_score (pats : List ((List Char → Bool) × ℕ)) (s : List Char) : ℕ :=
  pats.foldl (fun acc pw => if pw.1 s then acc + pw.2 else acc) 0

/-- `_detect_negation` (lines 497-553): a leading "yes" short-circuits to
affirmed; otherwise negated iff the negation sum strictly exceeds the
affirmation sum. -/
def _detect_negation (answer_lower : List Char) : Bool :=
  if reMatchStart pat_leading_yes answer_lower then false
  else decide (_weighted_score affirmation_patterns answer_lower <
    _weighted_score negation_patterns answer_lower)

def pyToLower (s : List Char) : List Char := s.map Char.toLower

def pyToUpper (s : List Char) : List Char := s.map Char.toUpper

/-- Python `str.strip()`. -/
def pyStrip (s : List Char) : List Char :=
  ((s.dropWhile isPySpace).reverse.dropWhile isPySpace).reverse

/-- Case-insensitive prefix match of one label (one alternative of the
label alternation under `re.IGNORECASE`); returns the original matched text
and the rest. -/
def ciPref : List Char → List Char → Option (List Char × List Char)
  | [], s => some ([], s)
  | _ :: _, [] => none
  | c :: cs, d :: ds =>
    if d.toLower = c.toLower then
      (ciPref cs ds).map fun pr => (d :: pr.1, pr.2)
    else none

/-- Attempts of the label alternation at the head of `s`, in the alternation
order of the pattern. -/
def tryLabel (labels : List (List Char)) (s : List Char) : List (List Char × List Char) :=
  labels.flatMap fun lab =>
    match ciPref lab s with
    | some pr => [pr]
    | none => []

/-- All splits after consuming zero or more whitespace characters. -/
def wsSplits : List Char → List (List Char)
  | [] => [[]]
  | c :: cs => (c :: cs) :: (if isPySpace c then wsSplits cs else [])

/-- Consume one expected literal character. -/
def headIs (c : Char) (s : List Char) : Option (List Char) :=
  match s with
  | d :: ds => if d = c then some ds else none
  | [] => none

/-- One attempted match of `\((row)\s*,\s*(col)\)` (line 575) at the head of
`s`: captured label pair plus the rest after the match. -/
def matchPosAt (row_labels col_labels : List (List Char)) (s : List Char) :
    List ((List Char × List Char) × List Char) :=
  match headIs '(' s with
  | none => []
  | some rest =>
    (tryLabel row_labels rest).flatMap fun p1 =>
      (wsSplits p1.2).flatMap fun r2 =>
        match headIs ',' r2 with
        | none => []
        | some r3 =>
          (wsSplits r3).flatMap fun r4 =>
            (tryLabel col_labels r4).flatMap fun p2 =>
              match headIs ')' p2.2 with
              | none => []
              | some r6 => [((p1.1, p2.1), r6)]

theorem ciPref_len (w : List Char) : ∀ s pr, ciPref w s = some pr →
    pr.2.length ≤ s.length := by
  induction w with
  | nil =>
    intro s pr h
    simp only [ciPref, Option.some.injEq] at h
    rw [← h]
  | cons c cs ih =>
    intro s pr h
    cases s with
    | nil => simp [ciPref] at h
    | cons d ds =>
      simp only [ciPref] at h
      by_cases hd : d.toLower = c.toLower
      · rw [if_pos hd, Option.map_eq_some'] at h
        obtain ⟨pr', hpr', heq⟩ := h
        have := ih ds pr' hpr'
        rw [← heq]
        simpa using Nat.le_succ_of_le this
      · rw [if_neg hd] at h
        exact absurd h (by simp)

theorem tryLabel_len {labels : List (List Char)} {s : List Char}
    {x : List Char × List Char} (hx : x ∈ tryLabel labels s) :
    x.2.length ≤ s.length := by
  obtain ⟨lab, -, hmem⟩ := List.mem_flatMap.mp hx
  cases h : ciPref lab s with
  | none => rw [h] at hmem; exact absurd hmem (by simp)
  | some pr =>
    rw [h] at hmem
    simp only [List.mem_singleton] at hmem
    subst hmem
    exact ciPref_len lab s _ h

theorem wsSplits_len {s r : List Char} (hr : r ∈ wsSplits s) : r.length ≤ s.length := by
  induction s with
  | nil => simp only [wsSplits, List.mem_singleton] at hr; rw [hr]
  | cons c cs ih =>
    simp only [wsSplits] at hr
    rcases List.mem_cons.mp hr with h | h
    · rw [h]
    · by_cases hc : isPySpace c
      · rw [if_pos hc] at h
        exact Nat.le_succ_of_le (ih h)
      · rw [if_neg hc] at h
        exact absurd h (by simp)

theorem headIs_len {c : Char} {s r : List Char} (h : headIs c s = some r) :
    r.length < s.length := by
  cases s with
  | nil => simp [headIs] at h
  | cons d ds =>
    simp only [headIs] at h
    by_cases hd : d = c
    · rw [if_pos hd, Option.some.injEq] at h
      rw [← h]
      simp
    · rw [if_neg hd] at h
      exact absurd h (by simp)

theorem matchPosAt_len {row_labels col_labels : List (List Char)} {s : List Char}
    {x : (List Char × List Char) × List Char}
    (hx : x ∈ matchPosAt row_labels col_labels s) :
    x.2.length < s.length := by
  unfold matchPosAt at hx
  cases h0 : headIs '(' s with
  | none => rw [h0] at hx; exact absurd hx (by simp)
  | some rest =>
    rw [h0] at hx
    obtain ⟨p1, hp1, hx⟩ := List.mem_flatMap.mp hx
    obtain ⟨r2, hr2, hx⟩ := List.mem_flatMap.mp hx
    cases h1 : headIs ',' r2 with
    | none => rw [h1] at hx; exact absurd hx (by simp)
    | some r3 =>
      rw [h1] at hx
      obtain ⟨r4, hr4, hx⟩ := List.mem_flatMap.mp hx
      obtain ⟨p2, hp2, hx⟩ := List.mem_flatMap.mp hx
      cases h2 : headIs ')' p2.2 with
      | none => rw [h2] at hx; exact absurd hx (by simp)
      | some r6 =>
        rw [h2] at hx
        simp only [List.mem_singleton] at hx
        subst hx
        have e0 : rest.length < s.length := headIs_len h0
        have e1 : p1.2.length ≤ rest.length := tryLabel_len hp1
        have e2 : r2.length ≤ p1.2.length := wsSplits_len hr2
        have e3 : r3.length < r2.length := headIs_len h1
        have e4 : r4.length ≤ r3.length := wsSplits_len hr4
        have e5 : p2.2.length ≤ r4.length := tryLabel_len hp2
        have e6 : r6.length < p2.2.length := headIs_len h2
        simp only []
        omega

/-- `re.findall` over the position pattern: scan left to right, taking the
first successful match attempt (backtracking order) at each position and
continuing after its end. -/
def findLabelPairs (row_labels col_labels : List (List Char)) (s : List Char) :
    List (List Char × List Char) :=
  match s with
  | [] => []
  | c :: rest =>
    match hm : matchPosAt row_labels col_labels (c :: rest) with
    | x :: _ => x.1 :: findLabelPairs row_labels col_labels x.2
    | [] => findLabelPairs row_labels col_labels rest
termination_by s.length
decreasing_by
  · exact matchPosAt_len (by rw [hm]; exact List.mem_cons_self _ _)
  · simp

/-- Python `list.index`, which raises `ValueError` on a missing element. -/
def pyIndex (l : List (List Char)) (x : List Char) : Except String ℕ :=
  match l.findIdx? fun y => y == x with
  | some i => Except.ok i
  | none => Except.error "ValueError"

/-- `_extract_positions` (lines 555-588); the `try ... except ValueError:
continue` around the two index lookups is the handler turning a failed lookup
into a skip. -/
def _extract_positions (student_answer : List Char)
    (row_labels col_labels : List (List Char)) : Except String (List (ℕ × ℕ)) :=
  if row_labels.isEmpty || col_labels.isEmpty then Except.ok []
  else
    (findLabelPairs row_labels col_labels student_answer).foldlM
      (fun positions m =>
        match (pyIndex row_labels (pyToUpper m.1)).bind fun row_idx =>
            (pyIndex col_labels (pyToUpper m.2)).map fun col_idx =>
              (row_idx, col_idx) with
        | Except.ok rc => Except.ok (positions ++ [rc])
        | Except.error _ => Except.ok positions)
      []

/-- The `exists` variable of `_parse_student_answer` (lines 442-454): negation
detection when a claim is made, `startswith("yes")` for a direct answer
(unreachable, since `_extract_existence_claim` never returns it), `False`
when no clear claim is found. -/
def parsed_exists (answer_lower : List Char) : Bool :=
  match _extract_existence_claim answer_lower with
  | some t =>
    if t = "equilibrium_mentioned" then !(_detect_negation answer_lower)
    else if t = "direct_answer" then "yes".toList.isPrefixOf answer_lower
    else false
  | none => false

/-- `_parse_student_answer` (lines 426-459). -/
def _parse_student_answer (student_answer : List Char)
    (row_labels col_labels : List (List Char)) :
    Except String (Bool × List (ℕ × ℕ)) :=
  let answer_lower := pyStrip (pyToLower student_answer)
  (_extract_positions student_answer row_labels col_labels).map fun positions =>
    (parsed_exists answer_lower, positions)

/-- `evaluate_answer` (lines 94-187): parse, then score (feedback strings and
the explanation text are not modelled). -/
def evaluate_answer (student_answer : List Char) (correct_answer : CorrectAnswer)
    (row_labels col_labels : List (List Char)) : Except String ℚ :=
  (_parse_student_answer student_answer row_labels col_labels).map fun p =>
    scoreOf p.1 p.2 correct_answer

theorem foldlM_ok_of_ok {α β : Type} (f : β → α → Except String β)
    (hf : ∀ b a, ∃ b', f b a = Except.ok b') :
    ∀ (l : List α) (b : β), ∃ r, l.foldlM f b = Except.ok r := by
  intro l
  induction l with
  | nil => intro b; exact ⟨b, rfl⟩
  | cons a t ih =>
    intro b
    obtain ⟨b', hb'⟩ := hf b a
    obtain ⟨r, hr⟩ := ih b'
    refine ⟨r, ?_⟩
    rw [List.foldlM_cons, hb']
    exact hr

/-- Position extraction is total: every raised `ValueError` is caught. -/
theorem extract_positions_ok (s : List Char) (rl cl : List (List Char)) :
    ∃ ps, _extract_positions s rl cl = Except.ok ps := by
  unfold _extract_positions
  by_cases h : rl.isEmpty || cl.isEmpty
  · rw [if_pos h]; exact ⟨[], rfl⟩
  · rw [if_neg h]
    refine foldlM_ok_of_ok _ ?_ _ []
    intro b a
    cases hx : (pyIndex rl (pyToUpper a.1)).bind fun row_idx =>
        (pyIndex cl (pyToUpper a.2)).map fun col_idx => (row_idx, col_idx) with
    | ok rc => exact ⟨b ++ [rc], rfl⟩
    | error e => exact ⟨b, rfl⟩

/-- Parsing is total. -/
theorem parse_student_answer_ok (s : List Char) (rl cl : List (List Char)) :
    ∃ ex ps, _parse_student_answer s rl cl = Except.ok (ex, ps) := by
  obtain ⟨ps, hps⟩ := extract_positions_ok s rl cl
  unfold _parse_student_answer
  rw [hps]
  exact ⟨_, ps, rfl⟩

/-! ## MatrixGenerator: `generate_question` (lines 18-64) and helpers.
`random.choice` / `random.randint` are modelled by an injected source;
`randint` additionally receives a draw counter so distinct draws are
distinct, and raises `ValueError` (as Python does) when `lo > hi`. -/

/-- Injected random source. -/
structure Rng where
  choice : List ℕ → ℕ
  randint : ℕ → ℤ → ℤ → ℤ

/-- A well-formed `random.choice` returns a member of its argument. -/
def RngWF (g : Rng) : Prop := ∀ l : List ℕ, l ≠ [] → g.choice l ∈ l

/-- `random.randint(lo, hi)`: `ValueError` on an empty range. -/
def pyRandint (g : Rng) (k : ℕ) (lo hi : ℤ) : Except String ℤ :=
  if lo > hi then Except.error "ValueError" else Except.ok (g.randint k lo hi)

/-- `_get_default_rows` (lines 280-287). -/
def _get_default_rows (g : Rng) (difficulty : String) : ℤ :=
  if difficulty = "easy" then 2
  else if difficulty = "medium" then (g.choice [2, 3] : ℕ)
  else (g.choice [3, 4] : ℕ)

/-- `_get_default_cols` (lines 289-296). -/
def _get_default_cols (g : Rng) (difficulty : String) : ℤ :=
  if difficulty = "easy" then 2
  else if difficulty = "medium" then (g.choice [2, 3] : ℕ)
  else (g.choice [3, 4] : ℕ)

/-- Python's `range(n)` for a possibly negative bound. -/
def intRange (n : ℤ) : List ℕ := List.range n.toNat

/-- `_generate_random_matrix` (lines 298-317): dict keys are the `(i, j)`
pairs; the two payoffs of a cell are consecutive draws. -/
def _generate_random_matrix (g : Rng) (rows cols : ℤ) (min_payoff max_payoff : ℤ) :
    Except String (List ((ℕ × ℕ) × (ℤ × ℤ))) :=
  (intRange rows).foldlM
    (fun acc i =>
      (intRange cols).foldlM
        (fun acc2 j => do
          let p1 ← pyRandint g (2 * acc2.length) min_payoff max_payoff
          let p2 ← pyRandint g (2 * acc2.length + 1) min_payoff max_payoff
          pure (acc2 ++ [((i, j), (p1, p2))]))
        acc)
    []

/-- Python `l[:n]` (a negative stop counts from the end). -/
def pySliceTo (l : List String) (n : ℤ) : List String :=
  if 0 ≤ n then l.take n.toNat else l.take ((l.length : ℤ) + n).toNat

/-- `_generate_labels` (lines 319-339). -/
def _generate_labels (count : ℤ) (label_type : String) : List String :=
  if label_type = "row" then
    if count ≤ 3 then pySliceTo ["U", "M", "D"] count
    else (List.range count.toNat).map fun i => "R" ++ toString (i + 1)
  else
    if count ≤ 3 then pySliceTo ["L", "C", "R"] count
    else (List.range count.toNat).map fun i => "C" ++ toString (i + 1)

/-- Python `x or default` on an optional int argument: `None` and `0` both
fall back to the default. -/
def pyOr (v : Option ℤ) (dflt : ℤ) : ℤ :=
  match v with
  | none => dflt
  | some x => if x = 0 then dflt else x

/-- Dict lookup for the generated matrix (in-range keys are always present). -/
def lookupFn (m : List ((ℕ × ℕ) × (ℤ × ℤ))) : ℕ → ℕ → ℤ × ℤ := fun i j =>
  ((m.lookup (i, j)).getD (0, 0))

/-- The result of `generate_question`, restricted to the fields the claims
read (`question_text` is not modelled; the correct answer is inlined). -/
structure Question where
  difficulty : String
  rows : ℤ
  cols : ℤ
  matrix : List ((ℕ × ℕ) × (ℤ × ℤ))
  row_labels : List String
  col_labels : List String
  answer_exists : Bool
  equilibria : List (ℕ × ℕ)

/-- `generate_question` (lines 18-64): resolve dimensions (a `rows`/`cols`
override of `0` or `None` falls back to the difficulty default via Python
`or`), generate the matrix (the only fallible step), generate labels, and
compute the correct answer. -/
def generate_question (g : Rng) (difficulty : String)
    (rowsArg colsArg : Option ℤ) (min_payoff max_payoff : ℤ) :
    Except String Question := do
  let rows := pyOr rowsArg (_get_default_rows g difficulty)
  let cols := pyOr colsArg (_get_default_cols g difficulty)
  let matrix ← _generate_random_matrix g rows cols min_payoff max_payoff
  let row_labels := _generate_labels rows "row"
  let col_labels := _generate_labels cols "col"
  let equilibria := _find_nash_equilibria (lookupFn matrix) rows.toNat cols.toNat
  pure { difficulty := difficulty, rows := rows, cols := cols, matrix := matrix,
         row_labels := row_labels, col_labels := col_labels,
         answer_exists := decide (0 < equilibria.length), equilibria := equilibria }

theorem foldlM_ok_eq {α β : Type} (f : β → α → Except String β) (f' : β → α → β)
    (hf : ∀ b a, f b a = Except.ok (f' b a)) :
    ∀ (l : List α) (b : β), l.foldlM f b = Except.ok (l.foldl f' b) := by
  intro l
  induction l with
  | nil => intro b; rfl
  | cons a t ih =>
    intro b
    rw [List.foldlM_cons, hf b a, List.foldl_cons]
    exact ih (f' b a)

/-- With a non-empty payoff range, matrix generation always succeeds. -/
theorem generate_random_matrix_ok (g : Rng) (rows cols : ℤ) {minp maxp : ℤ}
    (h : minp ≤ maxp) :
    ∃ m, _generate_random_matrix g rows cols minp maxp = Except.ok m := by
  unfold _generate_random_matrix
  have hcell : ∀ (acc2 : List ((ℕ × ℕ) × (ℤ × ℤ))) (i j : ℕ),
      (do
        let p1 ← pyRandint g (2 * acc2.length) minp maxp
        let p2 ← pyRandint g (2 * acc2.length + 1) minp maxp
        pure (acc2 ++ [((i, j), (p1, p2))]) : Except String _) =
      Except.ok (acc2 ++ [((i, j), (g.randint (2 * acc2.length) minp maxp,
        g.randint (2 * acc2.length + 1) minp maxp))]) := by
    intro acc2 i j
    rw [show pyRandint g (2 * acc2.length) minp maxp =
        Except.ok (g.randint (2 * acc2.length) minp maxp) from
      if_neg (not_lt.mpr h)]
    rw [show pyRandint g (2 * acc2.length + 1) minp maxp =
        Except.ok (g.randint (2 * acc2.length + 1) minp maxp) from
      if_neg (not_lt.mpr h)]
    rfl
  exact ⟨_, foldlM_ok_eq _
    (fun acc i => (intRange cols).foldl
      (fun acc2 j => acc2 ++ [((i, j), (g.randint (2 * acc2.length) minp maxp,
        g.randint (2 * acc2.length + 1) minp maxp))]) acc)
    (fun b a => foldlM_ok_eq _ _ (fun b2 a2 => hcell b2 a a2) (intRange cols) b)
    (intRange rows) []⟩

/-- With a non-empty payoff range, question generation always succeeds, with
the resolved dimensions. -/
theorem generate_question_ok (g : Rng) (difficulty : String)
    (rowsArg colsArg : Option ℤ) {minp maxp : ℤ} (h : minp ≤ maxp) :
    ∃ q, generate_question g difficulty rowsArg colsArg minp maxp = Except.ok q ∧
      q.rows = pyOr rowsArg (_get_default_rows g difficulty) ∧
      q.cols = pyOr colsArg (_get_default_cols g difficulty) := by
  obtain ⟨m, hm⟩ := generate_random_matrix_ok g
    (pyOr rowsArg (_get_default_rows g difficulty))
    (pyOr colsArg (_get_default_cols g difficulty)) h
  unfold generate_question
  simp only [hm]
  exact ⟨_, rfl, rfl, rfl⟩

/-! ## Claims -/

/-- C1: the solver returns exactly the cells `(i, j)` such that no other row
gives strictly greater player-1 payoff at `(i', j)` and no other column gives
strictly greater player-2 payoff at `(i, j')` (strict `>`, so ties do not
break best-response status), in row-major order with no duplicates. -/
theorem C1_solver_characterization (matrix : ℕ → ℕ → ℤ × ℤ) (rows cols : ℕ) :
    (∀ i j, (i, j) ∈ _find_nash_equilibria matrix rows cols ↔
      i < rows ∧ j < cols ∧
      (∀ i', i' < rows → i' ≠ i → ¬ (matrix i j).1 < (matrix i' j).1) ∧
      (∀ j', j' < cols → j' ≠ j → ¬ (matrix i j).2 < (matrix i j').2)) ∧
    (_find_nash_equilibria matrix rows cols).Pairwise rowMajorLt ∧
    (_find_nash_equilibria matrix rows cols).Nodup :=
  ⟨fun i j => mem_find_iff matrix rows cols i j,
   find_pairwise matrix rows cols, find_nodup matrix rows cols⟩

/-- The concrete 2x2 instance of C2: `p1 = [[5,0],[0,0]]`, `p2 = [[5,0],[0,0]]`. -/
def M_c2 : ℕ → ℕ → ℤ × ℤ := fun i j => if i = 0 ∧ j = 0 then (5, 5) else (0, 0)

/-- C2 (counterexample): on the claimed instance the solver does NOT return
`[(0,0)]` only; the tie at `(1,1)` (both alternatives give payoff 0, not
strictly more) makes `(1,1)` a weak-best-response equilibrium as well. -/
theorem C2_counterexample :
    _find_nash_equilibria M_c2 2 2 ≠ [(0, 0)] ∧
    (1, 1) ∈ _find_nash_equilibria M_c2 2 2 := by decide

/-- C2 (amended): on that instance the solver returns `[(0,0), (1,1)]`. -/
theorem C2_amended_solver_output :
    _find_nash_equilibria M_c2 2 2 = [(0, 0), (1, 1)] := by decide

/-- C5: the existence term contributes 50 exactly when the claimed existence
matches the solution's, and the position term is only evaluated when the
solution's `exists` is true; with `exists = false` the score is 50 on a
matching claim and 0 on a mismatched one, regardless of claimed positions. -/
theorem C5_existence_term (se : Bool) (sPos cPos : List (ℕ × ℕ)) :
    scoreOf true sPos ⟨false, cPos⟩ = 0 ∧
    scoreOf false sPos ⟨false, cPos⟩ = 50 ∧
    scoreOf se sPos ⟨true, cPos⟩ =
      pyRound2 ((if se = true then 50 else 0) +
        positionScore sPos.toFinset cPos.toFinset) := by
  refine ⟨?_, ?_, rfl⟩
  · show pyRound2 ((if (true : Bool) = false then (50:ℚ) else 0) +
      (if (false : Bool) = true then
        positionScore sPos.toFinset cPos.toFinset else 0)) = 0
    norm_num
    simpa using pyRound2_int 0
  · show pyRound2 ((if (false : Bool) = false then (50:ℚ) else 0) +
      (if (false : Bool) = true then
        positionScore sPos.toFinset cPos.toFinset else 0)) = 50
    norm_num
    simpa using pyRound2_int 50

/-- C7: answer interpretation is total (it returns `Except.ok` on every
input; in particular the only raising operation, `list.index`, is guarded by
the `except ValueError` handler), and it defaults to existence `false` when
no claim is classified and to an empty position list when the position
pattern finds no matches. -/
theorem C7_parse_total (student_answer : List Char)
    (row_labels col_labels : List (List Char)) :
    ∃ r, _parse_student_answer student_answer row_labels col_labels =
        Except.ok r ∧
      (_extract_existence_claim (pyStrip (pyToLower student_answer)) = none →
        r.1 = false) ∧
      (findLabelPairs row_labels col_labels student_answer = [] → r.2 = []) := by
  obtain ⟨ps0, hps⟩ := extract_positions_ok student_answer row_labels col_labels
  refine ⟨(parsed_exists (pyStrip (pyToLower student_answer)), ps0), ?_, ?_, ?_⟩
  · unfold _parse_student_answer
    rw [hps]
    rfl
  · intro hnone
    show parsed_exists (pyStrip (pyToLower student_answer)) = false
    unfold parsed_exists
    rw [hnone]
  · intro hfl
    have hok : _extract_positions student_answer row_labels col_labels =
        Except.ok [] := by
      unfold _extract_positions
      by_cases hl : row_labels.isEmpty || col_labels.isEmpty
      · rw [if_pos hl]
      · rw [if_neg hl, hfl]
        rfl
    rw [hok] at hps
    injection hps with h2
    exact h2.symm

/-- C9: on any student answer text and any correct answer produced by
`generate_answer`, evaluation returns a score in `[0, 100]` that is an exact
multiple of `1/100` (two-decimal rounding). -/
theorem C9_score_bounds (student_answer : List Char)
    (row_labels col_labels : List (List Char))
    (matrix : ℕ → ℕ → ℤ × ℤ) (rows cols : ℕ) :
    ∃ sc : ℚ, evaluate_answer student_answer (generate_answer matrix rows cols)
        row_labels col_labels = Except.ok sc ∧
      0 ≤ sc ∧ sc ≤ 100 ∧ ∃ n : ℤ, sc = (n : ℚ) / 100 := by
  obtain ⟨ex, ps, hp⟩ :=
    parse_student_answer_ok student_answer row_labels col_labels
  have hgen : (generate_answer matrix rows cols).exists_ = true →
      (generate_answer matrix rows cols).equilibria ≠ [] := by
    unfold generate_answer
    simp only [decide_eq_true_eq]
    intro h
    exact List.ne_nil_of_length_pos h
  have hb := scoreOf_bounds ex ps (generate_answer matrix rows cols) hgen
  refine ⟨scoreOf ex ps (generate_answer matrix rows cols), ?_, hb.1, hb.2, ?_⟩
  · unfold evaluate_answer
    rw [hp]
    rfl
  · exact ⟨_, rfl⟩

theorem pyRound2_eq_self (n : ℤ) {q : ℚ} (h : q * 100 = (n : ℚ)) :
    pyRound2 q = q := by
  unfold pyRound2
  rw [h, roundHalfEven_int, ← h]
  exact mul_div_cancel_right₀ _ (by norm_num)

/-- C4: with equilibria present, a non-empty claimed set different from the
correct set scores `max(0, base - penalty)` with `base = (|C∩S|/|C|)*50` and
`penalty = min((|S\C|/|C|)*25, base*0.5)`; concretely, with `|C| = 2`, one
correct and one false claimed position and a correct existence claim, the
total is `62.50`. -/
theorem C4_partial_credit :
    (∀ S C : Finset (ℕ × ℕ), S ≠ ∅ → C ≠ ∅ → S ≠ C →
      positionScore S C =
        max 0 ((((S ∩ C).card : ℚ) / (C.card : ℚ)) * 50 -
          min ((((S \ C).card : ℚ) / (C.card : ℚ)) * 25)
            (((((S ∩ C).card : ℚ) / (C.card : ℚ)) * 50) * (1/2)))) ∧
    scoreOf true [(0, 0), (0, 1)] ⟨true, [(0, 0), (1, 1)]⟩ = 125 / 2 := by
  constructor
  · intro S C hS hC hSC
    have hnotfull : ¬ ((S ∩ C).card = C.card ∧ (S \ C).card = 0) := by
      rintro ⟨h1, h2⟩
      apply hSC
      have hInter : S ∩ C = C :=
        Finset.eq_of_subset_of_card_le Finset.inter_subset_right (le_of_eq h1.symm)
      have hsub : S ⊆ C :=
        Finset.sdiff_eq_empty_iff_subset.mp (Finset.card_eq_zero.mp h2)
      have hsup : C ⊆ S := by
        intro x hx
        rw [← hInter] at hx
        exact (Finset.mem_inter.mp hx).1
      exact Finset.Subset.antisymm hsub hsup
    have hSne : ¬ S.card = 0 := by
      rw [Finset.card_eq_zero]
      exact hS
    unfold positionScore
    rw [if_neg hnotfull, if_neg hSne]
    by_cases hinc : 0 < (S \ C).card
    · rw [if_pos hinc]
    · rw [if_neg hinc]
      have h0 : (S \ C).card = 0 := by omega
      have hbase : 0 ≤ (((S ∩ C).card : ℚ) / (C.card : ℚ)) * 50 := by positivity
      rw [h0]
      push_cast
      rw [zero_div, zero_mul, min_eq_left (by positivity), sub_zero,
        max_eq_right hbase]
  · show pyRound2 ((if (true : Bool) = true then (50:ℚ) else 0) +
      (if (true : Bool) = true then
        positionScore [((0:ℕ), (0:ℕ)), (0, 1)].toFinset
          [((0:ℕ), (0:ℕ)), (1, 1)].toFinset else 0)) = 125 / 2
    have h1 : ([((0:ℕ), (0:ℕ)), (0, 1)].toFinset ∩
        [((0:ℕ), (0:ℕ)), (1, 1)].toFinset).card = 1 := by decide
    have h2 : ([((0:ℕ), (0:ℕ)), (0, 1)].toFinset \
        [((0:ℕ), (0:ℕ)), (1, 1)].toFinset).card = 1 := by decide
    have h3 : ([((0:ℕ), (0:ℕ)), (1, 1)].toFinset).card = 2 := by decide
    have h4 : ([((0:ℕ), (0:ℕ)), (0, 1)].toFinset).card = 2 := by decide
    unfold positionScore
    rw [h1, h2, h3, h4]
    norm_num
    exact pyRound2_eq_self 6250 (by norm_num)

/-- Witness for C4 at `S = {(0,0)}`, `C = {(0,0),(1,1)}`. -/
theorem C4_witness :
    ({((0:ℕ), (0:ℕ))} : Finset (ℕ × ℕ)) ≠ ∅ ∧
    ({((0:ℕ), (0:ℕ)), (1, 1)} : Finset (ℕ × ℕ)) ≠ ∅ ∧
    ({((0:ℕ), (0:ℕ))} : Finset (ℕ × ℕ)) ≠ {((0:ℕ), (0:ℕ)), (1, 1)} ∧
    positionScore {((0:ℕ), (0:ℕ))} {((0:ℕ), (0:ℕ)), (1, 1)} =
      max 0 (((({((0:ℕ), (0:ℕ))} ∩ {((0:ℕ), (0:ℕ)), (1, 1)} :
          Finset (ℕ × ℕ)).card : ℚ) /
            (({((0:ℕ), (0:ℕ)), (1, 1)} : Finset (ℕ × ℕ)).card : ℚ)) * 50 -
        min (((({((0:ℕ), (0:ℕ))} \ {((0:ℕ), (0:ℕ)), (1, 1)} :
            Finset (ℕ × ℕ)).card : ℚ) /
              (({((0:ℕ), (0:ℕ)), (1, 1)} : Finset (ℕ × ℕ)).card : ℚ)) * 25)
          ((((({((0:ℕ), (0:ℕ))} ∩ {((0:ℕ), (0:ℕ)), (1, 1)} :
            Finset (ℕ × ℕ)).card : ℚ) /
              (({((0:ℕ), (0:ℕ)), (1, 1)} : Finset (ℕ × ℕ)).card : ℚ)) * 50) *
            (1/2))) :=
  ⟨by decide, by decide, by decide,
   C4_partial_credit.1 _ _ (by decide) (by decide) (by decide)⟩

/-- C6: for every answer text classified as making a claim, a leading "yes"
(after optional whitespace) makes the reported existence true regardless of
any other patterns; otherwise existence is false iff the weighted negation
sum strictly exceeds the weighted affirmation sum, ties resolving to true. -/
theorem C6_negation_weighting (s : List Char) (rl cl : List (List Char))
    (h : _extract_existence_claim (pyStrip (pyToLower s)) =
      some "equilibrium_mentioned") :
    ∃ ps, _parse_student_answer s rl cl =
        Except.ok (parsed_exists (pyStrip (pyToLower s)), ps) ∧
      (reMatchStart pat_leading_yes (pyStrip (pyToLower s)) = true →
        parsed_exists (pyStrip (pyToLower s)) = true) ∧
      (reMatchStart pat_leading_yes (pyStrip (pyToLower s)) = false →
        (parsed_exists (pyStrip (pyToLower s)) = false ↔
          _weighted_score affirmation_patterns (pyStrip (pyToLower s)) <
            _weighted_score negation_patterns (pyStrip (pyToLower s)))) := by
  obtain ⟨ps0, hps⟩ := extract_positions_ok s rl cl
  have hex : parsed_exists (pyStrip (pyToLower s)) =
      !(_detect_negation (pyStrip (pyToLower s))) := by
    unfold parsed_exists
    rw [h]
    rfl
  refine ⟨ps0, ?_, ?_, ?_⟩
  · unfold _parse_student_answer
    rw [hps]
    rfl
  · intro hyes
    rw [hex]
    unfold _detect_negation
    rw [if_pos hyes]
    rfl
  · intro hno
    rw [hex]
    unfold _detect_negation
    rw [if_neg (by rw [hno]; simp)]
    simp

/-- Witness for C6 at the text "nash" (classified as a claim, no leading yes,
both weighted sums zero, so the tie reports existence true). -/
theorem C6_witness :
    _extract_existence_claim (pyStrip (pyToLower "nash".toList)) =
      some "equilibrium_mentioned" ∧
    ∃ ps, _parse_student_answer "nash".toList [] [] =
        Except.ok (parsed_exists (pyStrip (pyToLower "nash".toList)), ps) ∧
      (reMatchStart pat_leading_yes (pyStrip (pyToLower "nash".toList)) = true →
        parsed_exists (pyStrip (pyToLower "nash".toList)) = true) ∧
      (reMatchStart pat_leading_yes (pyStrip (pyToLower "nash".toList)) = false →
        (parsed_exists (pyStrip (pyToLower "nash".toList)) = false ↔
          _weighted_score affirmation_patterns (pyStrip (pyToLower "nash".toList)) <
            _weighted_score negation_patterns (pyStrip (pyToLower "nash".toList)))) :=
  ⟨by decide, C6_negation_weighting "nash".toList [] [] (by decide)⟩

/-- A concrete random source for witnesses: `choice` takes the head, `randint`
returns the lower bound. -/
def g0 : Rng := { choice := fun l => l.headD 0, randint := fun _ lo _ => lo }

theorem g0_wf : RngWF g0 := by
  intro l hl
  match l with
  | a :: t => exact List.mem_cons_self a t

/-- C3 (counterexample): generation with an explicit `rows = 0` override does
not fail at all (no `InvalidConfiguration` is raised; the zero is treated as
falsy and silently replaced by the difficulty default). -/
theorem C3_counterexample :
    (generate_question g0 "easy" (some 0) none 0 10).isOk = true := by decide

theorem foldlM_cons_error {α β : Type} {f : β → α → Except String β} {b : β}
    {a : α} {t : List α} {e : String} (h : f b a = Except.error e) :
    (a :: t).foldlM f b = Except.error e := by
  rw [List.foldlM_cons, h]
  rfl

/-- With an empty payoff range and at least one cell to fill, the first
`randint` draw raises `ValueError` and matrix generation fails with it. -/
theorem generate_random_matrix_error (g : Rng) {rows cols minp maxp : ℤ}
    (h : maxp < minp) (hr : 0 < rows) (hc : 0 < cols) :
    _generate_random_matrix g rows cols minp maxp =
      Except.error "ValueError" := by
  obtain ⟨nr, hnr⟩ : ∃ n, rows.toNat = n + 1 := ⟨rows.toNat - 1, by omega⟩
  obtain ⟨nc, hnc⟩ : ∃ n, cols.toNat = n + 1 := ⟨cols.toNat - 1, by omega⟩
  have hrand : ∀ k, pyRandint g k minp maxp = Except.error "ValueError" :=
    fun k => if_pos h
  unfold _generate_random_matrix intRange
  rw [hnr, hnc, List.range_succ_eq_map, List.range_succ_eq_map]
  refine foldlM_cons_error (foldlM_cons_error ?_)
  rw [show (do
      let p1 ← pyRandint g (2 * ([] : List ((ℕ × ℕ) × ℤ × ℤ)).length) minp maxp
      let p2 ← pyRandint g (2 * ([] : List ((ℕ × ℕ) × ℤ × ℤ)).length + 1) minp maxp
      pure (([] : List ((ℕ × ℕ) × ℤ × ℤ)) ++ [((0, 0), (p1, p2))]) :
    Except String _) = Except.error "ValueError" from by rw [hrand]; rfl]

/-- C3 (amended): generation performs no validation and no
`InvalidConfiguration` exists.  `minPayoff > maxPayoff` makes the first
`random.randint` call raise `ValueError` during matrix generation (here with
the easy 2x2 defaults); a `rows`/`cols` override of `0` is falsy and silently
replaced by the difficulty default, so generation succeeds whenever the
payoff range is non-empty; and a negative dimension yields an empty matrix
without any error. -/
theorem C3_amended_no_validation (g : Rng) (minp maxp : ℤ) :
    (maxp < minp → generate_question g "easy" none none minp maxp =
      Except.error "ValueError") ∧
    (minp ≤ maxp →
      (generate_question g "easy" (some 0) (some 0) minp maxp).isOk = true) ∧
    (generate_question g "easy" (some (-1)) (some (-1)) minp maxp).isOk = true := by
  refine ⟨?_, ?_, ?_⟩
  · intro hlt
    have herr := generate_random_matrix_error g hlt
      (by norm_num : (0:ℤ) < 2) (by norm_num : (0:ℤ) < 2)
    have e1 : pyOr none (_get_default_rows g "easy") = 2 := rfl
    have e2 : pyOr none (_get_default_cols g "easy") = 2 := rfl
    unfold generate_question
    simp only [e1, e2, herr]
    rfl
  · intro hle
    obtain ⟨q, hq, -, -⟩ := generate_question_ok g "easy" (some 0) (some 0) hle
    rw [hq]
    rfl
  · have e1 : pyOr (some (-1)) (_get_default_rows g "easy") = -1 := rfl
    have e2 : pyOr (some (-1)) (_get_default_cols g "easy") = -1 := rfl
    have hm : _generate_random_matrix g (-1) (-1) minp maxp = Except.ok [] := rfl
    unfold generate_question
    simp only [e1, e2, hm]
    rfl

/-- Witness for C3 (amended) at `g0` with payoff ranges `(1, 0)` and `(0, 10)`. -/
theorem C3_amended_witness :
    generate_question g0 "easy" none none 1 0 = Except.error "ValueError" ∧
    (generate_question g0 "easy" (some 0) (some 0) 0 10).isOk = true ∧
    (generate_question g0 "easy" (some (-1)) (some (-1)) 0 10).isOk = true :=
  ⟨(C3_amended_no_validation g0 1 0).1 (by norm_num),
   (C3_amended_no_validation g0 0 10).2.1 (by norm_num),
   (C3_amended_no_validation g0 0 10).2.2⟩

theorem default_rows_ge_two (g : Rng) (hg : RngWF g) (difficulty : String) :
    2 ≤ _get_default_rows g difficulty := by
  unfold _get_default_rows
  by_cases h1 : difficulty = "easy"
  · rw [if_pos h1]
  · rw [if_neg h1]
    by_cases h2 : difficulty = "medium"
    · rw [if_pos h2]
      have := hg [2, 3] (by simp)
      simp only [List.mem_cons, List.mem_singleton] at this
      rcases this with h | h | h
      · rw [h]; norm_num
      · rw [h]; norm_num
      · exact absurd h (by simp)
    · rw [if_neg h2]
      have := hg [3, 4] (by simp)
      simp only [List.mem_cons, List.mem_singleton] at this
      rcases this with h | h | h
      · rw [h]; norm_num
      · rw [h]; norm_num
      · exact absurd h (by simp)

theorem default_cols_ge_two (g : Rng) (hg : RngWF g) (difficulty : String) :
    2 ≤ _get_default_cols g difficulty := by
  unfold _get_default_cols
  by_cases h1 : difficulty = "easy"
  · rw [if_pos h1]
  · rw [if_neg h1]
    by_cases h2 : difficulty = "medium"
    · rw [if_pos h2]
      have := hg [2, 3] (by simp)
      simp only [List.mem_cons, List.mem_singleton] at this
      rcases this with h | h | h
      · rw [h]; norm_num
      · rw [h]; norm_num
      · exact absurd h (by simp)
    · rw [if_neg h2]
      have := hg [3, 4] (by simp)
      simp only [List.mem_cons, List.mem_singleton] at this
      rcases this with h | h | h
      · rw [h]; norm_num
      · rw [h]; norm_num
      · exact absurd h (by simp)

/-- C10: an explicit `rows = 0` / `cols = 0` override does not fail: the zero
is falsy under Python `or`, so the dimension silently falls back to the
difficulty default, which is always at least 2 (for any well-formed random
source). -/
theorem C10_zero_override_fallback (g : Rng) (hg : RngWF g) (difficulty : String) :
    ∃ q, generate_question g difficulty (some 0) (some 0) 0 10 = Except.ok q ∧
      q.rows = _get_default_rows g difficulty ∧
      q.cols = _get_default_cols g difficulty ∧
      2 ≤ q.rows ∧ 2 ≤ q.cols := by
  obtain ⟨q, hq, hr, hc⟩ :=
    generate_question_ok g difficulty (some 0) (some 0) (by norm_num : (0:ℤ) ≤ 10)
  have e1 : pyOr (some 0) (_get_default_rows g difficulty) =
      _get_default_rows g difficulty := rfl
  have e2 : pyOr (some 0) (_get_default_cols g difficulty) =
      _get_default_cols g difficulty := rfl
  rw [e1] at hr
  rw [e2] at hc
  refine ⟨q, hq, hr, hc, ?_, ?_⟩
  · rw [hr]; exact default_rows_ge_two g hg difficulty
  · rw [hc]; exact default_cols_ge_two g hg difficulty

/-- Witness for C10 at `g0` and the "hard" difficulty. -/
theorem C10_witness :
    ∃ q, generate_question g0 "hard" (some 0) (some 0) 0 10 = Except.ok q ∧
      q.rows = _get_default_rows g0 "hard" ∧
      q.cols = _get_default_cols g0 "hard" ∧
      2 ≤ q.rows ∧ 2 ≤ q.cols :=
  C10_zero_override_fallback g0 g0_wf "hard"

/-- Row-permuted instance: row `i` of the permuted game is row `σ i` of the
original (row labels move with the rows but do not enter the solver). -/
def permRows (matrix : ℕ → ℕ → ℤ × ℤ) (rows : ℕ) (σ : Equiv.Perm (Fin rows)) :
    ℕ → ℕ → ℤ × ℤ := fun i j =>
  if h : i < rows then matrix (σ ⟨i, h⟩) j else matrix i j

/-- Column-permuted instance. -/
def permCols (matrix : ℕ → ℕ → ℤ × ℤ) (cols : ℕ) (τ : Equiv.Perm (Fin cols)) :
    ℕ → ℕ → ℤ × ℤ := fun i j =>
  if h : j < cols then matrix i (τ ⟨j, h⟩) else matrix i j

theorem permRows_apply (matrix : ℕ → ℕ → ℤ × ℤ) {rows : ℕ}
    (σ : Equiv.Perm (Fin rows)) {i : ℕ} (h : i < rows) (j : ℕ) :
    permRows matrix rows σ i j = matrix (σ ⟨i, h⟩) j := by
  unfold permRows
  rw [dif_pos h]

theorem permRows_apply_fin (matrix : ℕ → ℕ → ℤ × ℤ) {rows : ℕ}
    (σ : Equiv.Perm (Fin rows)) (i : Fin rows) (j : ℕ) :
    permRows matrix rows σ (i : ℕ) j = matrix (σ i) j := by
  rw [permRows_apply matrix σ i.isLt j, Fin.eta]

theorem permCols_apply (matrix : ℕ → ℕ → ℤ × ℤ) {cols : ℕ}
    (τ : Equiv.Perm (Fin cols)) (i : ℕ) {j : ℕ} (h : j < cols) :
    permCols matrix cols τ i j = matrix i (τ ⟨j, h⟩) := by
  unfold permCols
  rw [dif_pos h]

theorem permCols_apply_fin (matrix : ℕ → ℕ → ℤ × ℤ) {cols : ℕ}
    (τ : Equiv.Perm (Fin cols)) (i : ℕ) (j : Fin cols) :
    permCols matrix cols τ i (j : ℕ) = matrix i (τ j) := by
  rw [permCols_apply matrix τ i j.isLt, Fin.eta]

/-- C8: permuting the rows of an instance (payoffs and labels consistently)
permutes the solver's output positions identically, and likewise for columns:
cell `(i, j)` is in the solver's output for the row-permuted instance iff
`(σ i, j)` is in the output for the original, and `(i, j)` is in the output
for the column-permuted instance iff `(i, τ j)` is in the original's. -/
theorem C8_permutation_invariance (matrix : ℕ → ℕ → ℤ × ℤ) (rows cols : ℕ)
    (σ : Equiv.Perm (Fin rows)) (τ : Equiv.Perm (Fin cols)) :
    (∀ (i : Fin rows) (j : ℕ),
      (((i : ℕ), j) ∈ _find_nash_equilibria (permRows matrix rows σ) rows cols ↔
        (((σ i : Fin rows) : ℕ), j) ∈ _find_nash_equilibria matrix rows cols)) ∧
    (∀ (i : ℕ) (j : Fin cols),
      ((i, (j : ℕ)) ∈ _find_nash_equilibria (permCols matrix cols τ) rows cols ↔
        (i, ((τ j : Fin cols) : ℕ)) ∈ _find_nash_equilibria matrix rows cols)) := by
  constructor
  · intro i j
    rw [mem_find_iff, mem_find_iff]
    simp only [i.isLt, (σ i).isLt, true_and]
    constructor
    · rintro ⟨hj, h1, h2⟩
      refine ⟨hj, ?_, ?_⟩
      · intro k hk hkne
        have hne : ((σ.symm ⟨k, hk⟩ : Fin rows) : ℕ) ≠ (i : ℕ) := by
          intro he
          apply hkne
          have he2 : σ.symm ⟨k, hk⟩ = i := Fin.val_injective he
          rw [← he2, Equiv.apply_symm_apply]
        have hres := h1 ((σ.symm ⟨k, hk⟩ : Fin rows) : ℕ)
          (σ.symm ⟨k, hk⟩).isLt hne
        rw [permRows_apply_fin, permRows_apply_fin, Equiv.apply_symm_apply] at hres
        exact hres
      · intro j' hj' hne
        have hres := h2 j' hj' hne
        rw [permRows_apply_fin, permRows_apply_fin] at hres
        exact hres
    · rintro ⟨hj, h1, h2⟩
      refine ⟨hj, ?_, ?_⟩
      · intro k hk hkne
        rw [permRows_apply_fin, permRows_apply matrix σ hk]
        refine h1 ((σ ⟨k, hk⟩ : Fin rows) : ℕ) (σ ⟨k, hk⟩).isLt ?_
        intro he
        apply hkne
        have he2 : σ ⟨k, hk⟩ = σ i := Fin.val_injective he
        exact congrArg Fin.val (σ.injective he2)
      · intro j' hj' hne
        rw [permRows_apply_fin, permRows_apply_fin]
        exact h2 j' hj' hne
  · intro i j
    rw [mem_find_iff, mem_find_iff]
    simp only [j.isLt, (τ j).isLt, true_and]
    constructor
    · rintro ⟨hi, h1, h2⟩
      refine ⟨hi, ?_, ?_⟩
      · intro i' hi' hne
        have hres := h1 i' hi' hne
        rw [permCols_apply_fin, permCols_apply_fin] at hres
        exact hres
      · intro k hk hkne
        have hne : ((τ.symm ⟨k, hk⟩ : Fin cols) : ℕ) ≠ (j : ℕ) := by
          intro he
          apply hkne
          have he2 : τ.symm ⟨k, hk⟩ = j := Fin.val_injective he
          rw [← he2, Equiv.apply_symm_apply]
        have hres := h2 ((τ.symm ⟨k, hk⟩ : Fin cols) : ℕ)
          (τ.symm ⟨k, hk⟩).isLt hne
        rw [permCols_apply_fin, permCols_apply_fin, Equiv.apply_symm_apply] at hres
        exact hres
    · rintro ⟨hi, h1, h2⟩
      refine ⟨hi, ?_, ?_⟩
      · intro i' hi' hne
        rw [permCols_apply_fin, permCols_apply_fin]
        exact h1 i' hi' hne
      · intro k hk hkne
        rw [permCols_apply_fin, permCols_apply matrix τ i hk]
        refine h2 ((τ ⟨k, hk⟩ : Fin cols) : ℕ) (τ ⟨k, hk⟩).isLt ?_
        intro he
        apply hkne
        have he2 : τ ⟨k, hk⟩ = τ j := Fin.val_injective he
        exact congrArg Fin.val (τ.injective he2)

/-- Witness for C1 at the concrete 2x2 instance `M_c2`, cell `(0, 0)`. -/
theorem C1_witness :
    ((0, 0) ∈ _find_nash_equilibria M_c2 2 2 ↔
      0 < 2 ∧ 0 < 2 ∧
      (∀ i', i' < 2 → i' ≠ 0 → ¬ (M_c2 0 0).1 < (M_c2 i' 0).1) ∧
      (∀ j', j' < 2 → j' ≠ 0 → ¬ (M_c2 0 0).2 < (M_c2 0 j').2)) ∧
    (_find_nash_equilibria M_c2 2 2).Pairwise rowMajorLt ∧
    (_find_nash_equilibria M_c2 2 2).Nodup :=
  ⟨(C1_solver_characterization M_c2 2 2).1 0 0,
   (C1_solver_characterization M_c2 2 2).2.1,
   (C1_solver_characterization M_c2 2 2).2.2⟩

/-- Witness for C5 at empty position lists. -/
theorem C5_witness :
    scoreOf true [] ⟨false, []⟩ = 0 ∧
    scoreOf false [] ⟨false, []⟩ = 50 ∧
    scoreOf true [] ⟨true, []⟩ =
      pyRound2 ((if (true : Bool) = true then 50 else 0) +
        positionScore ([] : List (ℕ × ℕ)).toFinset
          ([] : List (ℕ × ℕ)).toFinset) :=
  C5_existence_term true [] []

/-- Witness for C7 at the signal-free text "zzz". -/
theorem C7_witness :
    ∃ r, _parse_student_answer "zzz".toList [['U']] [['L']] = Except.ok r ∧
      (_extract_existence_claim (pyStrip (pyToLower "zzz".toList)) = none →
        r.1 = false) ∧
      (findLabelPairs [['U']] [['L']] "zzz".toList = [] → r.2 = []) :=
  C7_parse_total "zzz".toList [['U']] [['L']]

/-- Witness for C9 at the text "yes" against the solved instance `M_c2`. -/
theorem C9_witness :
    ∃ sc : ℚ, evaluate_answer "yes".toList (generate_answer M_c2 2 2)
        [['U']] [['L']] = Except.ok sc ∧
      0 ≤ sc ∧ sc ≤ 100 ∧ ∃ n : ℤ, sc = (n : ℚ) / 100 :=
  C9_score_bounds "yes".toList [['U']] [['L']] M_c2 2 2

/-- Witness for C8 at `M_c2` with the row swap and cell `(0, 0)`. -/
theorem C8_witness :
    ((((0 : Fin 2) : ℕ), (0 : ℕ)) ∈
        _find_nash_equilibria (permRows M_c2 2 (Equiv.swap 0 1)) 2 2 ↔
      ((((Equiv.swap (0 : Fin 2) 1) 0 : Fin 2) : ℕ), (0 : ℕ)) ∈
        _find_nash_equilibria M_c2 2 2) :=
  (C8_permutation_invariance M_c2 2 2 (Equiv.swap 0 1) (Equiv.swap 0 1)).1 0 0
